import Mathlib

/-!
Verification of the local job cache returner (salt/returners/local_cache.py).

The module stores job records on a filesystem.  We embed the filesystem as a
finite association list from paths (lists of components) to entries (a
directory or a file with string content).  Serialized payloads are modelled as
opaque strings: the external serializer `salt.payload.Serial` round-trips a
value through a file, so a payload file simply holds the payload value.
Machine-level effects (os.makedirs, open/write) are explicit state-passing
functions on this filesystem.
-/

set_option maxHeartbeats 1000000

/-- Errno values distinguished by the code (`errno.EEXIST`, `errno.ENOENT`);
`EACCES` and `other` stand for the remaining OSError kinds that the code
does not inspect. -/
inductive Errno
  | EEXIST
  | ENOENT
  | EACCES
  | other
deriving DecidableEq, Repr

/-- A filesystem entry: a directory, or a file with (string) content. -/
inductive Entry
  | dir
  | file (content : String)
deriving DecidableEq, Repr

/-- A filesystem: a finite map from paths to entries, as an association list.
The most recent binding for a path shadows older ones. -/
structure FS where
  entries : List (List String × Entry)
deriving DecidableEq, Repr

def FS.empty : FS := ⟨[]⟩

def FS.lookup (fs : FS) (p : List String) : Option Entry :=
  (fs.entries.find? (fun q => decide (q.1 = p))).map (·.2)

/-- `os.path.exists` -/
def FS.exists_ (fs : FS) (p : List String) : Bool :=
  (fs.lookup p).isSome

/-- `os.path.isfile` -/
def FS.isFile (fs : FS) (p : List String) : Bool :=
  match fs.lookup p with
  | some (.file _) => true
  | _ => false

/-- `os.path.isdir` -/
def FS.isDir (fs : FS) (p : List String) : Bool :=
  match fs.lookup p with
  | some .dir => true
  | _ => false

/-- Writing a file (`salt.utils.fopen(path, "w"/"wb+")` followed by `write`):
creates the file or truncates and overwrites an existing one. -/
def FS.insert (fs : FS) (p : List String) (e : Entry) : FS :=
  ⟨(p, e) :: fs.entries⟩

/-- `os.listdir p`: the names of the immediate children of `p` present in the
filesystem (each child path is `p` plus one extra component). -/
def FS.listdir (fs : FS) (p : List String) : List String :=
  (fs.entries.filterMap
    (fun q =>
      if q.1.length = p.length + 1 ∧ q.1.take p.length = p then q.1.getLast? else none)).dedup

/-- Modelled from the spec: the exclusive-creation primitive (`os.makedirs` is
an external collaborator).  The spec describes its observable failures as the
"already exists" condition when the target directory exists, and the
missing-parent condition ("creation fails because the parent JobDirectory does
not exist") reported as `ENOENT`; otherwise the target directory is created. -/
def FS.makedirsSpec (p : List String) (fs : FS) : Except Errno FS :=
  if fs.exists_ p then .error .EEXIST
  else if ¬ fs.exists_ p.dropLast then .error .ENOENT
  else .ok (fs.insert p .dir)

/-- `os.makedirs` creating every missing intermediate directory: inserts every
nonempty prefix of `p` as a directory. -/
def FS.mkdirAll (fs : FS) (p : List String) : FS :=
  (List.range p.length).foldl (fun f i => f.insert (p.take (i + 1)) .dir) fs

theorem FS.lookup_insert (fs : FS) (p : List String) (e : Entry) :
    (fs.insert p e).lookup p = some e := by
  simp [FS.insert, FS.lookup, List.find?]

theorem FS.lookup_insert_ne (fs : FS) (p q : List String) (e : Entry) (h : q ≠ p) :
    (fs.insert p e).lookup q = fs.lookup q := by
  simp [FS.insert, FS.lookup, List.find?, Ne.symm h]

theorem FS.exists_insert_ne (fs : FS) (p q : List String) (e : Entry) (h : q ≠ p) :
    (fs.insert p e).exists_ q = fs.exists_ q := by
  simp [FS.exists_, FS.lookup_insert_ne fs p q e h]

theorem FS.exists_insert_self (fs : FS) (p : List String) (e : Entry) :
    (fs.insert p e).exists_ p = true := by
  simp [FS.exists_, FS.lookup_insert]

theorem FS.exists_mkdirAll_self (fs : FS) (p : List String) (h : p ≠ []) :
    (fs.mkdirAll p).exists_ p = true := by
  obtain ⟨n, hn⟩ : ∃ n, p.length = n + 1 := by
    cases hp : p.length with
    | zero => exact absurd (List.length_eq_zero.mp hp) h
    | succ n => exact ⟨n, rfl⟩
  unfold FS.mkdirAll
  rw [hn, List.range_succ, List.foldl_append]
  simp only [List.foldl_cons, List.foldl_nil]
  have : p.take (n + 1) = p := by
    rw [← hn]; exact List.take_length p
  rw [this]
  exact FS.exists_insert_self _ _ _

/- ### The sharded directory index (`_job_dir`, `_jid_dir`) -/

/-- `_job_dir`: the root of the jobs cache directory,
`os.path.join(__opts__["cachedir"], "jobs")`. -/
def _job_dir (cachedir : List String) : List String :=
  cachedir ++ ["jobs"]

/-- `_jid_dir`: the directory for a job id.  The configured hash algorithm
(`getattr(hashlib, __opts__["hash_type"])(jid).hexdigest()`) is an external
collaborator, passed as the hex-digest function `hashFn`.  The path is
`_job_dir() / digest[:2] / digest[2:]`. -/
def _jid_dir (cachedir : List String) (hashFn : String → String) (jid : String) :
    List String :=
  _job_dir cachedir ++ [(hashFn jid).take 2, (hashFn jid).drop 2]

/- ### `prep_jid` -/

/-- The tail of `prep_jid` after the creation attempt: write the `jid`
reservation marker containing the literal job id and, when `nocache` is set,
the empty `nocache` marker; return the job id. -/
def prep_jid_write (cachedir : List String) (hashFn : String → String)
    (nocache : Bool) (jid : String) (fs : FS) : String × FS :=
  let jd := _jid_dir cachedir hashFn jid
  let fs2 := fs.insert (jd ++ ["jid"]) (.file jid)
  let fs3 := if nocache then fs2.insert (jd ++ ["nocache"]) (.file "") else fs2
  (jid, fs3)

/-- `prep_jid`.  `mk` is the directory-creation primitive (`os.makedirs`),
`gens k` is the `k`-th candidate id produced by the external
`salt.utils.jid.gen_jid()`, and the final `Nat` argument is recursion fuel for
the unbounded self-retry (`none` means the call was still retrying when the
fuel ran out).  The `try/except OSError` catches every creation error: on any
error the code retries with a fresh id when no explicit id was passed, and
otherwise falls through to the marker writes. -/
def prep_jid (cachedir : List String) (hashFn : String → String)
    (mk : List String → FS → Except Errno FS) (nocache : Bool)
    (passed_jid : Option String) (gens : Nat → String) :
    FS → Nat → Nat → Option (String × FS)
  | _, _, 0 => none
  | fs, k, fuel + 1 =>
    let jid := match passed_jid with
      | none => gens k
      | some j => j
    match mk (_jid_dir cachedir hashFn jid) fs with
    | .ok fs' => some (prep_jid_write cachedir hashFn nocache jid fs')
    | .error _ =>
      if passed_jid.isNone then
        prep_jid cachedir hashFn mk nocache passed_jid gens fs (k + 1) fuel
      else
        some (prep_jid_write cachedir hashFn nocache jid fs)

/- ### `returner` -/

/-- The value `returner` hands back to its caller: Python `None` (falling off
the end of the function, or the early no-cache/standalone returns) or the
explicit `False` of the two creation-failure branches. -/
inductive PyRet
  | noneVal
  | falseVal
deriving DecidableEq, Repr

/-- The fields of the `load` dictionary that `returner` reads:
`load["jid"]`, `load["id"]` (the worker/minion id), `load["return"]`,
the optional `load["out"]`, and `load.get("nocache", False)`. -/
structure Load where
  jid : String
  id : String
  ret : String
  out : Option String
  nocache : Bool
deriving DecidableEq, Repr

/-- `returner(load)`.  `mk` is the directory-creation primitive and
`gens`/`fuel` feed the `prep_jid` call of the standalone-job (`"req"`) branch.
Returns `.ok` with the final filesystem and the Python return value, or
`.error e` when the bare `raise` re-throws a creation error whose errno is
neither `EEXIST` nor `ENOENT`; the outer `none` means the embedded `prep_jid`
call was still retrying when its fuel ran out.
`serial.dump(v, atomic_open(path))` is modelled as writing the payload `v`
to `path` (atomicity is a no-op for the sequential embedding). -/
def returner (cachedir : List String) (hashFn : String → String)
    (mk : List String → FS → Except Errno FS) (gens : Nat → String) (fuel : Nat)
    (load : Load) (fs : FS) : Option (Except Errno (FS × PyRet)) :=
  let withJid (jid : String) (fs : FS) : Except Errno (FS × PyRet) :=
    let jid_dir := _jid_dir cachedir hashFn jid
    if fs.exists_ (jid_dir ++ ["nocache"]) then .ok (fs, .noneVal)
    else
      let hn_dir := jid_dir ++ [load.id]
      match mk hn_dir fs with
      | .error .EEXIST => .ok (fs, .falseVal)
      | .error .ENOENT => .ok (fs, .falseVal)
      | .error e => .error e
      | .ok fs1 =>
        let fs2 := fs1.insert (hn_dir ++ ["return.p"]) (.file load.ret)
        let fs3 := match load.out with
          | some o => fs2.insert (hn_dir ++ ["out.p"]) (.file o)
          | none => fs2
        .ok (fs3, .noneVal)
  if load.jid = "req" then
    match prep_jid cachedir hashFn mk load.nocache none gens fs 0 fuel with
    | none => none
    | some (j, fs') => some (withJid j fs')
  else some (withJid load.jid fs)

/- ### `get_jid` -/

/-- A worker entry in the mapping built by `get_jid`:
`{"return": ret_data}` plus the optional `"out"` field. -/
structure JidEntry where
  ret : String
  out : Option String
deriving DecidableEq, Repr

/-- One attempted `serial.load(fopen(path))`: either the deserialized value, or
an exception carrying its message `str(exc)`. -/
inductive ReadOutcome
  | ok (v : String)
  | err (msg : String)

/-- The test `"Permission denied:" in str(exc)`: substring containment on the
message text. -/
def permDenied (msg : String) : Bool :=
  decide ("Permission denied:".data <:+: msg.data)

/-- Result of the per-worker `while fn_ not in ret` retry loop: the entry was
built (with its optional `out` payload), or an exception was re-raised. -/
inductive EntryLoopResult
  | got (e : JidEntry)
  | raised
deriving DecidableEq, Repr

/-- The `while fn_ not in ret` loop body of `get_jid` for one worker directory.
`retReads k` / `outReads k` are the outcomes of the `k`-th attempt to
deserialize `return.p` / `out.p` (reads are external effects that may fail,
e.g. on a concurrent write or a corrupt payload).  The last argument is fuel;
`none` means the loop was still spinning when the fuel ran out.  A failed
`return.p` read re-raises when its message contains "Permission denied:" and
otherwise retries; after `ret[fn_]` is assigned, a failed non-permission
`out.p` read leaves the loop (the condition `fn_ not in ret` is now false)
with the entry lacking `out`. -/
def get_jid_entry_loop (retReads outReads : Nat → ReadOutcome) (hasOut : Bool) :
    Nat → Nat → Option EntryLoopResult
  | _, 0 => none
  | k, fuel + 1 =>
    match retReads k with
    | .err m =>
      if permDenied m then some .raised
      else get_jid_entry_loop retReads outReads hasOut (k + 1) fuel
    | .ok v =>
      if hasOut then
        match outReads k with
        | .ok w => some (.got ⟨v, some w⟩)
        | .err m => if permDenied m then some .raised else some (.got ⟨v, none⟩)
      else some (.got ⟨v, none⟩)

/-- The `for fn_ in os.listdir(jid_dir)` loop of `get_jid`, threading the
accumulated mapping `acc` (an association list standing for the Python dict
`ret`).  Dot-prefixed names are skipped, as are names already present and
names without a `return.p` file. -/
def get_jid_go (jid_dir : List String) (fs : FS)
    (retReads outReads : String → Nat → ReadOutcome) (fuel : Nat) :
    List String → List (String × JidEntry) →
    Option (Except Unit (List (String × JidEntry)))
  | [], acc => some (.ok acc)
  | fn :: rest, acc =>
    if fn.data.head? = some '.' then
      get_jid_go jid_dir fs retReads outReads fuel rest acc
    else if (acc.find? (fun e => decide (e.1 = fn))).isSome then
      get_jid_go jid_dir fs retReads outReads fuel rest acc
    else if ¬ fs.isFile (jid_dir ++ [fn, "return.p"]) then
      get_jid_go jid_dir fs retReads outReads fuel rest acc
    else
      match get_jid_entry_loop (retReads fn) (outReads fn)
          (fs.isFile (jid_dir ++ [fn, "out.p"])) 0 fuel with
      | none => none
      | some .raised => some (.error ())
      | some (.got e) =>
        get_jid_go jid_dir fs retReads outReads fuel rest (acc ++ [(fn, e)])

/-- `get_jid(jid)`: the mapping from worker id to result data.  The outer
`none` means the call never terminated (a retry loop spun forever within the
given fuel); `some (.error ())` means an exception propagated out of the call;
`some (.ok m)` is a normal return.  `fn_.startswith(".")` is the test
`fn.data.head? = some '.'`. -/
def get_jid (cachedir : List String) (hashFn : String → String) (jid : String)
    (fs : FS) (retReads outReads : String → Nat → ReadOutcome) (fuel : Nat) :
    Option (Except Unit (List (String × JidEntry))) :=
  let jid_dir := _jid_dir cachedir hashFn jid
  if ¬ fs.isDir jid_dir then some (.ok [])
  else get_jid_go jid_dir fs retReads outReads fuel (fs.listdir jid_dir) []

/-- Termination of a `get_jid` call: some fuel suffices for it to produce a
result (normal return or propagated exception). -/
def get_jid_terminates (cachedir : List String) (hashFn : String → String)
    (jid : String) (fs : FS) (retReads outReads : String → Nat → ReadOutcome) :
    Prop :=
  ∃ fuel r, get_jid cachedir hashFn jid fs retReads outReads fuel = some r

/- ### `get_jids_filter` -/

/-- A job summary as produced by the external
`salt.utils.jid.format_jid_instance_ext(jid, job)`: the job id and the
`"Function"` field that the noise filter inspects.  Job ids are modelled as
naturals (the code only compares them, via `bisect`). -/
structure JobSummary where
  jid : Nat
  Function : String
deriving DecidableEq, Repr

/-- `bisect.bisect(keys, jid)` (that is, `bisect_right`), written as a linear
scan; it agrees with the stdlib binary search on the sorted lists `keys` that
`get_jids_filter` maintains. -/
def bisect_bisect (keys : List Nat) (x : Nat) : Nat :=
  match keys with
  | [] => 0
  | a :: t => if x < a then 0 else bisect_bisect t x + 1

/-- The body of the `get_jids_filter` loop after the noise filter: compute the
insertion point, skip when the list is at capacity and the new id sorts before
every entry, otherwise insert into `keys` and `ret` in lockstep and evict
index 0 when capacity is exceeded. -/
def gjf_step (count : Nat) (keys : List Nat) (ret : List JobSummary)
    (job : JobSummary) : List Nat × List JobSummary :=
  let i := bisect_bisect keys job.jid
  if keys.length = count ∧ i = 0 then (keys, ret)
  else
    let keys' := keys.insertIdx i job.jid
    let ret' := ret.insertIdx i job
    if count < keys'.length then (keys'.drop 1, ret'.drop 1) else (keys', ret')

/-- One full iteration of the `get_jids_filter` loop on the state
`(keys, ret)`: `continue` when the noise filter matches, otherwise run
`gjf_step`. -/
def gjf_body (count : Nat) (filter_find_job : Bool)
    (st : List Nat × List JobSummary) (job : JobSummary) :
    List Nat × List JobSummary :=
  if filter_find_job = true ∧ job.Function = "saltutil.find_job" then st
  else gjf_step count st.1 st.2 job

/-- `get_jids_filter(count, filter_find_job)`.  `jobs` is the sequence of
formatted summaries yielded by `_walk_through` over the cache (in walk
order). -/
def get_jids_filter (count : Nat) (filter_find_job : Bool)
    (jobs : List JobSummary) : List JobSummary :=
  (jobs.foldl (gjf_body count filter_find_job) ([], [])).2

/- ### `clean_old_jobs` -/

/-- One `shard/leaf` job directory as seen by the `clean_old_jobs` walk:
`jidFileCtime` is `os.stat(jid_file).st_ctime` of the `jid` reservation
marker, or `none` when the marker file is missing. -/
structure JobDirEntry where
  top : String
  final : String
  jidFileCtime : Option ℚ
deriving DecidableEq, Repr

/-- `clean_old_jobs()`.  `keep_jobs` is `__opts__["keep_jobs"]`, `cur` is
`time.time()`, `rootExists` is `os.path.exists(jid_root)` and `dirs` the
walked job directories; returns the directories still present afterwards
(`shutil.rmtree` removes a directory).  Times are rationals (the float
arithmetic `(cur - ctime) / 3600.0` is exact division here). -/
def clean_old_jobs (keep_jobs : ℚ) (cur : ℚ) (rootExists : Bool)
    (dirs : List JobDirEntry) : List JobDirEntry :=
  if keep_jobs ≠ 0 then
    if ¬ rootExists then dirs
    else dirs.filter (fun d =>
      match d.jidFileCtime with
      | none => false
      | some ct => decide (¬ (cur - ct) / 3600 > keep_jobs))
  else dirs

/- ### `update_endtime` / `get_endtime` -/

/-- Python `str.strip("\n")`: removes newline characters from both ends of the
string. -/
def pystrip_nl (s : String) : String :=
  ⟨((s.data.dropWhile (· == '\n')).reverse.dropWhile (· == '\n')).reverse⟩

/-- `update_endtime(jid, time)`: create the jid directory when absent and
write the plain-text `endtime` file.  (The `except IOError` logging path is
not reachable in the model, where writes succeed.) -/
def update_endtime (cachedir : List String) (hashFn : String → String)
    (jid : String) (time : String) (fs : FS) : FS :=
  let jid_dir := _jid_dir cachedir hashFn jid
  let fs1 := if fs.exists_ jid_dir then fs else fs.mkdirAll jid_dir
  fs1.insert (jid_dir ++ ["endtime"]) (.file time)

/-- `get_endtime(jid)`: `.ok none` is the Python `False` returned when no
`endtime` file exists; `.ok (some t)` is the stored text with newlines
stripped from both ends; `.error ()` models `fopen` raising when the path is
not a readable file. -/
def get_endtime (cachedir : List String) (hashFn : String → String)
    (jid : String) (fs : FS) : Except Unit (Option String) :=
  let etpath := _jid_dir cachedir hashFn jid ++ ["endtime"]
  match fs.lookup etpath with
  | none => .ok none
  | some (.file c) => .ok (some (pystrip_nl c))
  | some .dir => .error ()

/- ### Specification-side definitions and helper lemmas for `get_jids_filter` -/

instance : IsAntisymm Nat (· ≤ ·) := ⟨fun _ _ => Nat.le_antisymm⟩

/-- Comparison of job summaries by job id (the order `bisect` works in). -/
def jle (a b : JobSummary) : Prop := a.jid ≤ b.jid

instance : DecidableRel jle := fun a b => Nat.decLe a.jid b.jid

instance : IsTotal JobSummary jle := ⟨fun a b => Nat.le_total a.jid b.jid⟩

instance : IsTrans JobSummary jle := ⟨fun _ _ _ h h2 => Nat.le_trans h h2⟩

/-- The keep-predicate of the noise filter: the job is not a
`saltutil.find_job` status poll. -/
def notNoise (j : JobSummary) : Bool := decide (j.Function ≠ "saltutil.find_job")

/-- The last `n` elements of a list. -/
def lastN {α : Type} (n : Nat) (l : List α) : List α := l.drop (l.length - n)

/-- The claimed result of `get_jids_filter count true`: the `count`
greatest-jid non-noise jobs, in ascending jid order. -/
def topRecent (n : Nat) (jobs : List JobSummary) : List JobSummary :=
  lastN n (List.insertionSort jle (jobs.filter notNoise))

theorem bisect_bisect_le_length (l : List Nat) (x : Nat) :
    bisect_bisect l x ≤ l.length := by
  induction l with
  | nil => simp [bisect_bisect]
  | cons a t ih =>
    by_cases h : x < a <;> simp [bisect_bisect, h] <;> omega

theorem insertIdx_bisect_bisect (x : Nat) :
    ∀ (l : List Nat), x ∉ l →
      l.insertIdx (bisect_bisect l x) x = List.orderedInsert (· ≤ ·) x l
  | [], _ => rfl
  | a :: t, hx => by
    have hxa : x ≠ a := fun h => hx (h ▸ List.mem_cons_self a t)
    have hxt : x ∉ t := fun h => hx (List.mem_cons_of_mem a h)
    by_cases h : x < a
    · have hle : x ≤ a := Nat.le_of_lt h
      simp [bisect_bisect, List.orderedInsert, h, hle]
    · have hnle : ¬ x ≤ a := fun hle => h (Nat.lt_of_le_of_ne hle hxa)
      simp only [bisect_bisect, if_neg h, List.orderedInsert, if_neg hnle,
        List.insertIdx_succ_cons]
      rw [insertIdx_bisect_bisect x t hxt]

theorem orderedInsert_append_of_forall_not (x : Nat) (v : List Nat) :
    ∀ (u : List Nat), (∀ y ∈ u, ¬ x ≤ y) →
      List.orderedInsert (· ≤ ·) x (u ++ v) = u ++ List.orderedInsert (· ≤ ·) x v
  | [], _ => rfl
  | a :: u, h => by
    have ha : ¬ x ≤ a := h a (List.mem_cons_self a u)
    simp only [List.cons_append, List.orderedInsert, if_neg ha, List.append_eq]
    rw [orderedInsert_append_of_forall_not x v u (fun y hy => h y (List.mem_cons_of_mem a hy))]

theorem orderedInsert_append_of_exists (x : Nat) (v : List Nat) :
    ∀ (u : List Nat), (∃ y ∈ u, x ≤ y) →
      List.orderedInsert (· ≤ ·) x (u ++ v) = List.orderedInsert (· ≤ ·) x u ++ v
  | [], h => by simp at h
  | a :: u, h => by
    by_cases ha : x ≤ a
    · simp [List.orderedInsert, ha]
    · obtain ⟨y, hy, hxy⟩ := h
      have hyu : y ∈ u := by
        cases List.mem_cons.mp hy with
        | inl h' => exact absurd (h' ▸ hxy) ha
        | inr h' => exact h'
      simp only [List.cons_append, List.orderedInsert, if_neg ha, List.append_eq]
      rw [orderedInsert_append_of_exists x v u ⟨y, hyu, hxy⟩]

theorem map_insertIdx {α β : Type} (f : α → β) :
    ∀ (n : Nat) (a : α) (l : List α),
      (l.insertIdx n a).map f = (l.map f).insertIdx n (f a)
  | 0, _, _ => rfl
  | _ + 1, _, [] => rfl
  | n + 1, a, b :: t => by
    simp only [List.insertIdx_succ_cons, List.map_cons]
    rw [map_insertIdx f n a t]

theorem eq_of_map_jid_eq (pool : List JobSummary)
    (hinj : (pool.map JobSummary.jid).Nodup) :
    ∀ (l1 l2 : List JobSummary),
      (∀ y ∈ l1, y ∈ pool) → (∀ y ∈ l2, y ∈ pool) →
      l1.map JobSummary.jid = l2.map JobSummary.jid → l1 = l2
  | [], [], _, _, _ => rfl
  | [], _ :: _, _, _, hm => by simp at hm
  | _ :: _, [], _, _, hm => by simp at hm
  | a :: t1, b :: t2, h1, h2, hm => by
    simp only [List.map_cons, List.cons.injEq] at hm
    have hab : a = b :=
      List.inj_on_of_nodup_map hinj (h1 a (List.mem_cons_self a t1))
        (h2 b (List.mem_cons_self b t2)) hm.1
    rw [hab, eq_of_map_jid_eq pool hinj t1 t2
      (fun y hy => h1 y (List.mem_cons_of_mem a hy))
      (fun y hy => h2 y (List.mem_cons_of_mem b hy)) hm.2]

theorem insertionSort_map_jid (l : List JobSummary) :
    (List.insertionSort jle l).map JobSummary.jid
      = List.insertionSort (· ≤ ·) (l.map JobSummary.jid) := by
  have hperm : ((List.insertionSort jle l).map JobSummary.jid).Perm
      (List.insertionSort (· ≤ ·) (l.map JobSummary.jid)) :=
    ((List.perm_insertionSort jle l).map _).trans
      (List.perm_insertionSort (· ≤ ·) _).symm
  have hs1 : List.Sorted (· ≤ ·) ((List.insertionSort jle l).map JobSummary.jid) :=
    List.pairwise_map.mpr (List.sorted_insertionSort jle l)
  exact List.eq_of_perm_of_sorted hperm hs1 (List.sorted_insertionSort (· ≤ ·) _)

theorem insertionSort_append_singleton (m : List Nat) (x : Nat) :
    List.insertionSort (· ≤ ·) (m ++ [x])
      = List.orderedInsert (· ≤ ·) x (List.insertionSort (· ≤ ·) m) := by
  have hperm : (List.insertionSort (· ≤ ·) (m ++ [x])).Perm
      (List.orderedInsert (· ≤ ·) x (List.insertionSort (· ≤ ·) m)) :=
    (List.perm_insertionSort (· ≤ ·) (m ++ [x])).trans
      ((List.perm_append_singleton x m).trans
        (((List.perm_insertionSort (· ≤ ·) m).symm.cons x).trans
          (List.perm_orderedInsert (· ≤ ·) x _).symm))
  exact List.eq_of_perm_of_sorted hperm (List.sorted_insertionSort (· ≤ ·) _)
    ((List.sorted_insertionSort (· ≤ ·) m).orderedInsert x _)

/-- The keys-level effect of one `gjf_step` iteration: starting from the last
`N` elements of a sorted duplicate-free list `s0` of job ids, the
skip/insert/evict logic produces exactly the last `N` elements of `s0` with
`x` inserted in order. -/
theorem lastN_gjf_keys (N : Nat) (s0 : List Nat) (x : Nat)
    (hs : List.Sorted (· ≤ ·) s0) (hx : x ∉ s0) :
    (if (lastN N s0).length = N ∧ bisect_bisect (lastN N s0) x = 0 then lastN N s0
     else if N < ((lastN N s0).insertIdx (bisect_bisect (lastN N s0) x) x).length
       then ((lastN N s0).insertIdx (bisect_bisect (lastN N s0) x) x).drop 1
       else (lastN N s0).insertIdx (bisect_bisect (lastN N s0) x) x)
    = lastN N (List.orderedInsert (· ≤ ·) x s0) := by
  have hoiLen : (List.orderedInsert (· ≤ ·) x s0).length = s0.length + 1 :=
    List.orderedInsert_length (· ≤ ·) s0 x
  rcases le_or_lt s0.length N with hlen | hlen
  · -- the cache holds at most N jobs already: the window is all of s0
    have hd0 : s0.length - N = 0 := Nat.sub_eq_zero_of_le hlen
    have hkall : lastN N s0 = s0 := by simp [lastN, hd0]
    have hIns : s0.insertIdx (bisect_bisect s0 x) x = List.orderedInsert (· ≤ ·) x s0 :=
      insertIdx_bisect_bisect x s0 hx
    have hiLen : (s0.insertIdx (bisect_bisect s0 x) x).length = s0.length + 1 := by
      rw [hIns]; exact hoiLen
    rcases Nat.lt_or_ge s0.length N with hlt | hge
    · -- strictly below capacity: plain insertion, no eviction
      rw [hkall]
      rw [if_neg (by omega : ¬ (s0.length = N ∧ bisect_bisect s0 x = 0))]
      rw [if_neg (by omega : ¬ N < (s0.insertIdx (bisect_bisect s0 x) x).length)]
      rw [hIns]
      have : (List.orderedInsert (· ≤ ·) x s0).length - N = 0 := by omega
      simp [lastN, this]
    · -- exactly at capacity
      have hNeq : s0.length = N := Nat.le_antisymm hlen hge
      rw [hkall]
      by_cases hi : bisect_bisect s0 x = 0
      · rw [if_pos ⟨hNeq, hi⟩]
        have hdrop : lastN N (List.orderedInsert (· ≤ ·) x s0)
            = (List.orderedInsert (· ≤ ·) x s0).drop 1 := by
          unfold lastN; rw [hoiLen]; congr 1; omega
        rw [hdrop]
        cases s0 with
        | nil =>
          simp [List.orderedInsert]
        | cons a t =>
          have hxa : x < a := by
            by_contra hna
            simp [bisect_bisect, hna] at hi
          have : List.orderedInsert (· ≤ ·) x (a :: t) = x :: a :: t := by
            simp [List.orderedInsert, Nat.le_of_lt hxa]
          rw [this]
          rfl
      · rw [if_neg (by simp [hi] : ¬ (s0.length = N ∧ bisect_bisect s0 x = 0))]
        rw [if_pos (by omega : N < (s0.insertIdx (bisect_bisect s0 x) x).length)]
        rw [hIns]
        unfold lastN; rw [hoiLen]; congr 1; omega
  · -- above capacity: the window is a strict suffix
    have hdgt : 1 ≤ s0.length - N := by omega
    set d := s0.length - N with hd
    have hdle : d ≤ s0.length := Nat.sub_le _ _
    have hsplit : s0.take d ++ s0.drop d = s0 := List.take_append_drop d s0
    set u := s0.take d with hu
    set k := s0.drop d with hk
    have huLen : u.length = d := by rw [hu, List.length_take]; omega
    have hkLen : k.length = N := by rw [hk, List.length_drop]; omega
    have hpw : List.Pairwise (· ≤ ·) (u ++ k) := by rw [hsplit]; exact hs
    obtain ⟨hus, hks, hcross⟩ := List.pairwise_append.mp hpw
    have hxu : x ∉ u := fun h => hx (hsplit ▸ List.mem_append_left k h)
    have hxk : x ∉ k := fun h => hx (hsplit ▸ List.mem_append_right u h)
    have hlast : lastN N s0 = k := rfl
    have htarget : lastN N (List.orderedInsert (· ≤ ·) x s0)
        = (List.orderedInsert (· ≤ ·) x s0).drop (d + 1) := by
      unfold lastN; rw [hoiLen]; congr 1; omega
    rw [hlast, htarget]
    cases hNk : k with
    | nil =>
      -- N = 0: always skip, and the target window is empty
      have hN0 : N = 0 := by rw [hNk] at hkLen; simpa using hkLen.symm
      rw [if_pos ⟨by simp [hN0], rfl⟩]
      have hlen1 : d + 1 = (List.orderedInsert (· ≤ ·) x s0).length := by omega
      rw [hlen1, List.drop_length]
    | cons kh kt =>
      have hkLen2 : (kh :: kt).length = N := by rw [← hNk]; exact hkLen
      have hsplit2 : u ++ kh :: kt = s0 := by rw [← hNk]; exact hsplit
      have hxk2 : x ∉ kh :: kt := by rw [← hNk]; exact hxk
      have hkhk : kh ∈ k := by rw [hNk]; exact List.mem_cons_self kh kt
      by_cases hxkh : x < kh
      · -- new id sorts before the whole window: skipped, window unchanged
        have hi0 : bisect_bisect (kh :: kt) x = 0 := by simp [bisect_bisect, hxkh]
        rw [if_pos ⟨hkLen2, hi0⟩]
        by_cases hex : ∃ y ∈ u, x ≤ y
        · rw [← hsplit2, orderedInsert_append_of_exists x (kh :: kt) u hex]
          have hlen2 : d + 1 = (List.orderedInsert (· ≤ ·) x u).length := by
            rw [List.orderedInsert_length]; omega
          rw [hlen2, List.drop_left]
        · push_neg at hex
          have hforall : ∀ y ∈ u, ¬ x ≤ y := fun y hy hle =>
            absurd hle (Nat.not_le.mpr (hex y hy))
          rw [← hsplit2, orderedInsert_append_of_forall_not x (kh :: kt) u hforall]
          have hoik : List.orderedInsert (· ≤ ·) x (kh :: kt) = x :: kh :: kt := by
            simp [List.orderedInsert, Nat.le_of_lt hxkh]
          rw [hoik]
          have hassoc : u ++ x :: kh :: kt = (u ++ [x]) ++ kh :: kt := by simp
          have hlen2 : d + 1 = (u ++ [x]).length := by simp [huLen]
          rw [hassoc, hlen2, List.drop_left]
      · -- new id sorts after the window head: insert, then evict index 0
        have hkhx : kh ≤ x := Nat.le_of_not_lt hxkh
        have hine : bisect_bisect (kh :: kt) x ≠ 0 := by simp [bisect_bisect, hxkh]
        have hile : bisect_bisect (kh :: kt) x ≤ (kh :: kt).length :=
          bisect_bisect_le_length (kh :: kt) x
        have hiLen2 : ((kh :: kt).insertIdx (bisect_bisect (kh :: kt) x) x).length
            = (kh :: kt).length + 1 := List.length_insertIdx _ _ hile
        rw [if_neg
          (by simp [hine] : ¬ ((kh :: kt).length = N ∧ bisect_bisect (kh :: kt) x = 0))]
        rw [if_pos
          (by omega : N < ((kh :: kt).insertIdx (bisect_bisect (kh :: kt) x) x).length)]
        have hforall : ∀ y ∈ u, ¬ x ≤ y := by
          intro y hy hle
          have hykh : y ≤ kh := hcross y hy kh hkhk
          have hxy : x = y := Nat.le_antisymm hle (Nat.le_trans hykh hkhx)
          exact hxu (hxy ▸ hy)
        have hoi : List.orderedInsert (· ≤ ·) x s0
            = u ++ List.orderedInsert (· ≤ ·) x (kh :: kt) := by
          rw [← hsplit2, orderedInsert_append_of_forall_not x (kh :: kt) u hforall]
        rw [hoi, insertIdx_bisect_bisect x (kh :: kt) hxk2]
        rw [← List.drop_drop, ← huLen, List.drop_left]

theorem gjf_step_fst (N : Nat) (keys : List Nat) (r : List JobSummary) (j : JobSummary) :
    (gjf_step N keys r j).1 =
      if keys.length = N ∧ bisect_bisect keys j.jid = 0 then keys
      else if N < (keys.insertIdx (bisect_bisect keys j.jid) j.jid).length
        then (keys.insertIdx (bisect_bisect keys j.jid) j.jid).drop 1
        else keys.insertIdx (bisect_bisect keys j.jid) j.jid := by
  simp only [gjf_step]
  split
  · rfl
  · split <;> rfl

theorem gjf_step_snd_map (N : Nat) (r : List JobSummary) (j : JobSummary) :
    ((gjf_step N (r.map JobSummary.jid) r j).2).map JobSummary.jid
      = (gjf_step N (r.map JobSummary.jid) r j).1 := by
  simp only [gjf_step]
  split
  · rfl
  · split
    · simp only [List.map_drop, map_insertIdx]
    · simp only [map_insertIdx]

theorem gjf_step_snd_subset (N : Nat) (r : List JobSummary) (j : JobSummary) :
    ∀ y ∈ (gjf_step N (r.map JobSummary.jid) r j).2, y = j ∨ y ∈ r := by
  have hle : bisect_bisect (r.map JobSummary.jid) j.jid ≤ r.length := by
    have h := bisect_bisect_le_length (r.map JobSummary.jid) j.jid
    rwa [List.length_map] at h
  simp only [gjf_step]
  split
  · exact fun y hy => Or.inr hy
  · split
    · intro y hy
      exact (List.mem_insertIdx hle).mp (List.mem_of_mem_drop hy)
    · intro y hy
      exact (List.mem_insertIdx hle).mp hy

theorem gjf_step_topRecent (N : Nat) (G : List JobSummary) (j : JobSummary)
    (hnd : ((G ++ [j]).map JobSummary.jid).Nodup) :
    gjf_step N ((lastN N (List.insertionSort jle G)).map JobSummary.jid)
      (lastN N (List.insertionSort jle G)) j
    = ((lastN N (List.insertionSort jle (G ++ [j]))).map JobSummary.jid,
       lastN N (List.insertionSort jle (G ++ [j]))) := by
  have h1 : (List.insertionSort jle G).map JobSummary.jid
      = List.insertionSort (· ≤ ·) (G.map JobSummary.jid) := insertionSort_map_jid G
  have hlen1 : (List.insertionSort jle G).length
      = (List.insertionSort (· ≤ ·) (G.map JobSummary.jid)).length := by
    rw [← h1, List.length_map]
  have hmapr : (lastN N (List.insertionSort jle G)).map JobSummary.jid
      = lastN N (List.insertionSort (· ≤ ·) (G.map JobSummary.jid)) := by
    unfold lastN
    rw [List.map_drop, h1, hlen1]
  have hnd' : (G.map JobSummary.jid ++ [j.jid]).Nodup := by simpa using hnd
  have hxG : j.jid ∉ G.map JobSummary.jid := by
    intro hmem
    exact (List.nodup_append.mp hnd').2.2 hmem (List.mem_singleton.mpr rfl)
  have hxs0 : j.jid ∉ List.insertionSort (· ≤ ·) (G.map JobSummary.jid) := fun h =>
    hxG ((List.perm_insertionSort (· ≤ ·) _).mem_iff.mp h)
  have hkey := lastN_gjf_keys N (List.insertionSort (· ≤ ·) (G.map JobSummary.jid)) j.jid
    (List.sorted_insertionSort (· ≤ ·) _) hxs0
  have h2 : (List.insertionSort jle (G ++ [j])).map JobSummary.jid
      = List.orderedInsert (· ≤ ·) j.jid
          (List.insertionSort (· ≤ ·) (G.map JobSummary.jid)) := by
    rw [insertionSort_map_jid]
    simp only [List.map_append, List.map_cons, List.map_nil]
    exact insertionSort_append_singleton (G.map JobSummary.jid) j.jid
  have hlen2 : (List.insertionSort jle (G ++ [j])).length
      = (List.orderedInsert (· ≤ ·) j.jid
          (List.insertionSort (· ≤ ·) (G.map JobSummary.jid))).length := by
    rw [← h2, List.length_map]
  have htargetmap : (lastN N (List.insertionSort jle (G ++ [j]))).map JobSummary.jid
      = lastN N (List.orderedInsert (· ≤ ·) j.jid
          (List.insertionSort (· ≤ ·) (G.map JobSummary.jid))) := by
    unfold lastN
    rw [List.map_drop, h2, hlen2]
  have hfst : (gjf_step N ((lastN N (List.insertionSort jle G)).map JobSummary.jid)
      (lastN N (List.insertionSort jle G)) j).1
      = (lastN N (List.insertionSort jle (G ++ [j]))).map JobSummary.jid := by
    rw [gjf_step_fst, hmapr, htargetmap]
    exact hkey
  have hmem_r : ∀ y ∈ lastN N (List.insertionSort jle G), y ∈ G ++ [j] := by
    intro y hy
    have hy2 : y ∈ List.insertionSort jle G := List.mem_of_mem_drop hy
    exact List.mem_append_left [j] ((List.perm_insertionSort jle G).mem_iff.mp hy2)
  have hmem_T : ∀ y ∈ lastN N (List.insertionSort jle (G ++ [j])), y ∈ G ++ [j] := by
    intro y hy
    have hy2 : y ∈ List.insertionSort jle (G ++ [j]) := List.mem_of_mem_drop hy
    exact (List.perm_insertionSort jle (G ++ [j])).mem_iff.mp hy2
  have hmem_step : ∀ y ∈ (gjf_step N
      ((lastN N (List.insertionSort jle G)).map JobSummary.jid)
      (lastN N (List.insertionSort jle G)) j).2, y ∈ G ++ [j] := by
    intro y hy
    rcases gjf_step_snd_subset N (lastN N (List.insertionSort jle G)) j y hy with h | h
    · exact h ▸ List.mem_append_right G (List.mem_singleton.mpr rfl)
    · exact hmem_r y h
  have hsnd : (gjf_step N ((lastN N (List.insertionSort jle G)).map JobSummary.jid)
      (lastN N (List.insertionSort jle G)) j).2
      = lastN N (List.insertionSort jle (G ++ [j])) := by
    apply eq_of_map_jid_eq (G ++ [j]) hnd _ _ hmem_step hmem_T
    rw [gjf_step_snd_map, hfst]
  exact Prod.ext hfst hsnd

theorem gjf_fold_topRecent (N : Nat) :
    ∀ (rest G : List JobSummary),
      ((G ++ rest.filter notNoise).map JobSummary.jid).Nodup →
      rest.foldl (gjf_body N true)
        ((lastN N (List.insertionSort jle G)).map JobSummary.jid,
         lastN N (List.insertionSort jle G))
      = ((lastN N (List.insertionSort jle (G ++ rest.filter notNoise))).map
           JobSummary.jid,
         lastN N (List.insertionSort jle (G ++ rest.filter notNoise)))
  | [], G, _ => by simp
  | j :: rest, G, h => by
    by_cases hn : j.Function = "saltutil.find_job"
    · have hfilter : (j :: rest).filter notNoise = rest.filter notNoise := by
        simp [notNoise, hn]
      rw [hfilter] at h ⊢
      rw [List.foldl_cons]
      have hbody : gjf_body N true
          ((lastN N (List.insertionSort jle G)).map JobSummary.jid,
           lastN N (List.insertionSort jle G)) j
          = ((lastN N (List.insertionSort jle G)).map JobSummary.jid,
             lastN N (List.insertionSort jle G)) := by
        unfold gjf_body
        rw [if_pos ⟨rfl, hn⟩]
      rw [hbody]
      exact gjf_fold_topRecent N rest G h
    · have hfilter : (j :: rest).filter notNoise = j :: rest.filter notNoise := by
        simp [notNoise, hn]
      rw [hfilter] at h ⊢
      have hsub : ((G ++ [j]).map JobSummary.jid).Nodup := by
        apply List.Nodup.sublist _ h
        apply List.Sublist.map
        apply List.Sublist.append_left
        exact (List.nil_sublist _).cons₂ j
      rw [List.foldl_cons]
      have hbody : gjf_body N true
          ((lastN N (List.insertionSort jle G)).map JobSummary.jid,
           lastN N (List.insertionSort jle G)) j
          = gjf_step N ((lastN N (List.insertionSort jle G)).map JobSummary.jid)
              (lastN N (List.insertionSort jle G)) j := by
        unfold gjf_body
        rw [if_neg (fun hc => hn hc.2)]
      rw [hbody, gjf_step_topRecent N G j hsub]
      have hassoc : (G ++ [j]) ++ rest.filter notNoise = G ++ j :: rest.filter notNoise := by
        simp
      have h2 : (((G ++ [j]) ++ rest.filter notNoise).map JobSummary.jid).Nodup := by
        rw [hassoc]; exact h
      have := gjf_fold_topRecent N rest (G ++ [j]) h2
      rw [hassoc] at this
      exact this

/-- C3: for every count `N` and every walk sequence of jobs with
pairwise-distinct job ids, `get_jids_filter N true` returns exactly the `N`
greatest-jid non-noise jobs in ascending jid order (`topRecent N`); in
particular it returns at most `N` summaries, sorted ascending by job id, with
no `saltutil.find_job` job present. -/
theorem get_jids_filter_spec (N : Nat) (jobs : List JobSummary)
    (h : (jobs.map JobSummary.jid).Nodup) :
    get_jids_filter N true jobs = topRecent N jobs
    ∧ (get_jids_filter N true jobs).length ≤ N
    ∧ List.Sorted (· ≤ ·) ((get_jids_filter N true jobs).map JobSummary.jid)
    ∧ ∀ j ∈ get_jids_filter N true jobs, j.Function ≠ "saltutil.find_job" := by
  have hf : ((jobs.filter notNoise).map JobSummary.jid).Nodup :=
    List.Nodup.sublist (List.Sublist.map _ (List.filter_sublist jobs)) h
  have hmain : get_jids_filter N true jobs = topRecent N jobs := by
    unfold get_jids_filter topRecent
    have hfold := gjf_fold_topRecent N jobs [] (by simpa using hf)
    simp only [List.insertionSort, lastN, List.nil_append, List.map_nil,
      List.length_nil, List.drop_nil, Nat.zero_sub] at hfold
    rw [hfold]
    rfl
  refine ⟨hmain, ?_, ?_, ?_⟩
  · rw [hmain]
    unfold topRecent lastN
    rw [List.length_drop]
    omega
  · rw [hmain]
    unfold topRecent lastN
    apply List.pairwise_map.mpr
    apply List.Pairwise.sublist (List.drop_sublist _ _)
    exact List.sorted_insertionSort jle _
  · rw [hmain]
    intro j hj
    have hj2 : j ∈ List.insertionSort jle (jobs.filter notNoise) :=
      List.mem_of_mem_drop hj
    have hj3 : j ∈ jobs.filter notNoise :=
      (List.perm_insertionSort jle _).mem_iff.mp hj2
    have := List.of_mem_filter hj3
    simpa [notNoise] using this

theorem get_jids_filter_spec_witness :
    get_jids_filter 2 true
        [⟨5, "test.ping"⟩, ⟨1, "saltutil.find_job"⟩, ⟨3, "cmd.run"⟩, ⟨2, "state.apply"⟩]
      = topRecent 2
        [⟨5, "test.ping"⟩, ⟨1, "saltutil.find_job"⟩, ⟨3, "cmd.run"⟩, ⟨2, "state.apply"⟩]
    ∧ get_jids_filter 2 true
        [⟨5, "test.ping"⟩, ⟨1, "saltutil.find_job"⟩, ⟨3, "cmd.run"⟩, ⟨2, "state.apply"⟩]
      = [⟨3, "cmd.run"⟩, ⟨5, "test.ping"⟩] := by
  refine ⟨(get_jids_filter_spec 2
    [⟨5, "test.ping"⟩, ⟨1, "saltutil.find_job"⟩, ⟨3, "cmd.run"⟩, ⟨2, "state.apply"⟩]
    (by decide)).1, by decide⟩

/-- C8: `_jid_dir` is a pure deterministic function of the job id and the
configured hash algorithm: equal job ids yield equal paths, and the path is
`root/shard/leaf` with `shard` the first 2 hex characters of the digest and
`leaf` the remaining characters (so `shard ++ leaf` recovers the digest).
Purity is definitional in the embedding: `_jid_dir` reads nothing but its
arguments. -/
theorem jid_dir_pure_sharded (cachedir : List String) (hashFn : String → String)
    (j1 j2 : String) (h : j1 = j2) :
    _jid_dir cachedir hashFn j1 = _jid_dir cachedir hashFn j2
    ∧ _jid_dir cachedir hashFn j1
        = _job_dir cachedir ++ [(hashFn j1).take 2, (hashFn j1).drop 2]
    ∧ (hashFn j1).take 2 ++ (hashFn j1).drop 2 = hashFn j1 := by
  subst h
  refine ⟨rfl, rfl, ?_⟩
  apply String.ext
  simp [String.data_append]

theorem jid_dir_pure_sharded_witness :
    _jid_dir ["var"] (fun _ => "deadbeef") "1" = ["var", "jobs", "de", "adbeef"]
    ∧ "de" ++ "adbeef" = "deadbeef" := by
  have h := jid_dir_pure_sharded ["var"] (fun _ => "deadbeef") "1" "1" rfl
  refine ⟨?_, ?_⟩
  · rw [h.2.1]; decide
  · have h3 := h.2.2
    simpa using h3

/-- C4: `clean_old_jobs` with the disabled sentinel `keep_jobs = 0` deletes
nothing; with any other retention window `H` it removes exactly the job
directories lacking a `jid` marker and those whose marker is more than `H`
hours older than the current time, keeping precisely those whose marker is at
most `H` hours old. -/
theorem clean_old_jobs_spec (H cur : ℚ) (dirs : List JobDirEntry) :
    (H = 0 → clean_old_jobs H cur true dirs = dirs)
    ∧ (H ≠ 0 → ∀ d ∈ dirs,
        (d ∈ clean_old_jobs H cur true dirs ↔
          ∃ ct, d.jidFileCtime = some ct ∧ (cur - ct) / 3600 ≤ H)) := by
  constructor
  · intro h
    simp [clean_old_jobs, h]
  · intro h d hd
    unfold clean_old_jobs
    rw [if_pos h, if_neg (by simp)]
    rw [List.mem_filter]
    cases hct : d.jidFileCtime with
    | none => simp [hd, hct]
    | some ct => simp [hd, hct, not_lt]

theorem clean_old_jobs_spec_witness :
    clean_old_jobs 0 7200 true [⟨"aa", "x1", none⟩] = [⟨"aa", "x1", none⟩]
    ∧ (⟨"cc", "x3", some 5400⟩ : JobDirEntry) ∈ clean_old_jobs 1 7200 true
        [⟨"aa", "x1", none⟩, ⟨"bb", "x2", some 0⟩, ⟨"cc", "x3", some 5400⟩]
    ∧ (⟨"bb", "x2", some 0⟩ : JobDirEntry) ∉ clean_old_jobs 1 7200 true
        [⟨"aa", "x1", none⟩, ⟨"bb", "x2", some 0⟩, ⟨"cc", "x3", some 5400⟩]
    ∧ (⟨"aa", "x1", none⟩ : JobDirEntry) ∉ clean_old_jobs 1 7200 true
        [⟨"aa", "x1", none⟩, ⟨"bb", "x2", some 0⟩, ⟨"cc", "x3", some 5400⟩] := by
  refine ⟨(clean_old_jobs_spec 0 7200 [⟨"aa", "x1", none⟩]).1 rfl, ?_, ?_, ?_⟩
  · exact ((clean_old_jobs_spec 1 7200
      [⟨"aa", "x1", none⟩, ⟨"bb", "x2", some 0⟩, ⟨"cc", "x3", some 5400⟩]).2
      (by norm_num) _ (by simp)).mpr ⟨5400, rfl, by norm_num⟩
  · intro hmem
    obtain ⟨ct, hct, hle⟩ := ((clean_old_jobs_spec 1 7200
      [⟨"aa", "x1", none⟩, ⟨"bb", "x2", some 0⟩, ⟨"cc", "x3", some 5400⟩]).2
      (by norm_num) _ (by simp)).mp hmem
    simp only [Option.some.injEq] at hct
    rw [← hct] at hle
    norm_num at hle
  · intro hmem
    obtain ⟨ct, hct, _⟩ := ((clean_old_jobs_spec 1 7200
      [⟨"aa", "x1", none⟩, ⟨"bb", "x2", some 0⟩, ⟨"cc", "x3", some 5400⟩]).2
      (by norm_num) _ (by simp)).mp hmem
    simp at hct

theorem pystrip_nl_eq_self (t : String)
    (h1 : t.data.head? ≠ some '\n') (h2 : t.data.getLast? ≠ some '\n') :
    pystrip_nl t = t := by
  unfold pystrip_nl
  have hd : t.data.dropWhile (· == '\n') = t.data := by
    cases ht : t.data with
    | nil => rfl
    | cons a l =>
      rw [List.dropWhile_cons]
      have hne : ¬ a = '\n' := by
        intro he
        apply h1
        rw [ht, he]
        rfl
      simp [hne]
  rw [hd]
  have hr : t.data.reverse.dropWhile (· == '\n') = t.data.reverse := by
    cases ht : t.data.reverse with
    | nil => rfl
    | cons a l =>
      rw [List.dropWhile_cons]
      have hlast : t.data.getLast? = some a := by
        rw [← List.head?_reverse, ht]
        rfl
      have hne : ¬ a = '\n' := fun he => h2 (he ▸ hlast)
      simp [hne]
  rw [hr, List.reverse_reverse]

/-- C10 counterexample: the claim fails for a timestamp with a leading (not
trailing) newline, because Python `strip("\n")` removes newlines from both
ends: storing `"\nx"` and reading it back yields `"x"`, not `"\nx"`. -/
theorem endtime_roundtrip_cex :
    get_endtime ["var"] (fun _ => "abcd") "9"
        (update_endtime ["var"] (fun _ => "abcd") "9" "\nx" FS.empty) = .ok (some "x")
    ∧ "\nx".data.getLast? ≠ some '\n'
    ∧ ("x" : String) ≠ "\nx" := by
  refine ⟨?_, by decide, by decide⟩
  rfl

/-- C10 (amended): for every job id (including one never allocated) and every
timestamp string without leading or trailing newline characters,
`update_endtime` creates `_jid_dir(J)` if absent and a subsequent
`get_endtime` returns exactly the stored timestamp (rather than the absent
sentinel `False`); `get_endtime` strips newline characters from both ends of
the stored text, so a leading newline is removed as well. -/
theorem endtime_roundtrip (cachedir : List String) (hashFn : String → String)
    (jid t : String) (fs : FS)
    (h1 : t.data.head? ≠ some '\n') (h2 : t.data.getLast? ≠ some '\n') :
    get_endtime cachedir hashFn jid (update_endtime cachedir hashFn jid t fs)
      = .ok (some t)
    ∧ (update_endtime cachedir hashFn jid t fs).exists_
        (_jid_dir cachedir hashFn jid) = true := by
  constructor
  · show (match (update_endtime cachedir hashFn jid t fs).lookup
        (_jid_dir cachedir hashFn jid ++ ["endtime"]) with
      | none => (.ok none : Except Unit (Option String))
      | some (.file c) => .ok (some (pystrip_nl c))
      | some .dir => .error ()) = .ok (some t)
    unfold update_endtime
    rw [FS.lookup_insert]
    simp [pystrip_nl_eq_self t h1 h2]
  · unfold update_endtime
    have hne : _jid_dir cachedir hashFn jid
        ≠ _jid_dir cachedir hashFn jid ++ ["endtime"] := by
      intro he
      have hlen := congrArg List.length he
      simp at hlen
    show ((if fs.exists_ (_jid_dir cachedir hashFn jid) then fs
        else fs.mkdirAll (_jid_dir cachedir hashFn jid)).insert
          (_jid_dir cachedir hashFn jid ++ ["endtime"]) (.file t)).exists_
        (_jid_dir cachedir hashFn jid) = true
    rw [FS.exists_insert_ne _ _ _ _ hne]
    by_cases hex : fs.exists_ (_jid_dir cachedir hashFn jid)
    · rw [if_pos hex]
      exact hex
    · rw [if_neg hex]
      apply FS.exists_mkdirAll_self
      intro hnil
      simp [_jid_dir, _job_dir] at hnil

theorem endtime_roundtrip_witness :
    get_endtime ["var"] (fun _ => "abcd") "42"
        (update_endtime ["var"] (fun _ => "abcd") "42" "12:30:00" FS.empty)
      = .ok (some "12:30:00")
    ∧ (update_endtime ["var"] (fun _ => "abcd") "42" "12:30:00" FS.empty).exists_
        (_jid_dir ["var"] (fun _ => "abcd") "42") = true :=
  endtime_roundtrip ["var"] (fun _ => "abcd") "42" "12:30:00" FS.empty
    (by decide) (by decide)

theorem FS.makedirsSpec_ok (p : List String) (fs fs1 : FS)
    (h : FS.makedirsSpec p fs = .ok fs1) : fs1 = fs.insert p .dir := by
  unfold FS.makedirsSpec at h
  split at h
  · exact absurd h (by simp)
  · split at h
    · exact absurd h (by simp)
    · exact (Except.ok.inj h).symm

theorem path_ne_append_ne {p : List String} {a b : String} (h : a ≠ b) :
    p ++ [a] ≠ p ++ [b] := by
  intro he
  exact h (by simpa using List.append_cancel_left he)

theorem path_ne_of_length_ne {p q : List String} (h : p.length ≠ q.length) :
    p ≠ q := fun e => h (e ▸ rfl)

/-- C7 counterexample: a `prep_jid` call with an explicit id, `nocache=False`,
on a cache where that id is already reserved with a `nocache` marker, returns
successfully while the marker is still present — so "the marker exists iff
`nocache` was true" fails (the code never removes a stale marker; the
`except OSError` swallows the EEXIST and proceeds to the writes). -/
theorem prep_jid_nocache_cex :
    (prep_jid ["var"] (fun _ => "abcd") FS.makedirsSpec false (some "20")
        (fun _ => "g")
        ((FS.empty.insert (_jid_dir ["var"] (fun _ => "abcd") "20") .dir).insert
          (_jid_dir ["var"] (fun _ => "abcd") "20" ++ ["nocache"]) (.file ""))
        0 1).map
      (fun r => (r.1, r.2.exists_ (_jid_dir ["var"] (fun _ => "abcd") "20"
        ++ ["nocache"])))
      = some ("20", true) := by
  rfl

/-- C7 (amended): a successful `prep_jid` call (with or without an explicit
id) returns a job id `J` such that the `jid` file in `_jid_dir(J)` contains
exactly the literal string `J`; if `nocache` was true the empty `nocache`
marker exists on return, and if `nocache` was false the call does not write
the marker — its presence after the call equals its presence before (a stale
marker from an earlier reservation is left in place). -/
theorem prep_jid_success_markers (cachedir : List String)
    (hashFn : String → String) (nocache : Bool) (passed_jid : Option String)
    (gens : Nat → String) (fs : FS) (k fuel : Nat) (J : String) (fs' : FS)
    (h : prep_jid cachedir hashFn FS.makedirsSpec nocache passed_jid gens fs k fuel
      = some (J, fs')) :
    fs'.lookup (_jid_dir cachedir hashFn J ++ ["jid"]) = some (.file J)
    ∧ (nocache = true →
        fs'.lookup (_jid_dir cachedir hashFn J ++ ["nocache"]) = some (.file ""))
    ∧ (nocache = false →
        fs'.lookup (_jid_dir cachedir hashFn J ++ ["nocache"])
          = fs.lookup (_jid_dir cachedir hashFn J ++ ["nocache"])) := by
  induction fuel generalizing k with
  | zero => exact absurd h (by simp [prep_jid])
  | succ n ih =>
    have hmarks : ∀ (fsb : FS),
        (fsb.lookup (_jid_dir cachedir hashFn J ++ ["nocache"])
          = fs.lookup (_jid_dir cachedir hashFn J ++ ["nocache"])) →
        (prep_jid_write cachedir hashFn nocache J fsb).2.lookup
            (_jid_dir cachedir hashFn J ++ ["jid"]) = some (.file J)
        ∧ (nocache = true →
            (prep_jid_write cachedir hashFn nocache J fsb).2.lookup
              (_jid_dir cachedir hashFn J ++ ["nocache"]) = some (.file ""))
        ∧ (nocache = false →
            (prep_jid_write cachedir hashFn nocache J fsb).2.lookup
                (_jid_dir cachedir hashFn J ++ ["nocache"])
              = fs.lookup (_jid_dir cachedir hashFn J ++ ["nocache"])) := by
      intro fsb hpre
      have hne : _jid_dir cachedir hashFn J ++ ["nocache"]
          ≠ _jid_dir cachedir hashFn J ++ ["jid"] :=
        path_ne_append_ne (by decide)
      cases nocache with
      | true =>
        have hred : (prep_jid_write cachedir hashFn true J fsb).2
            = (fsb.insert (_jid_dir cachedir hashFn J ++ ["jid"]) (.file J)).insert
              (_jid_dir cachedir hashFn J ++ ["nocache"]) (.file "") := rfl
        rw [hred]
        refine ⟨?_, ⟨fun _ => ?_, fun hc => absurd hc (by decide)⟩⟩
        · rw [FS.lookup_insert_ne _ _ _ _ hne.symm, FS.lookup_insert]
        · rw [FS.lookup_insert]
      | false =>
        have hred : (prep_jid_write cachedir hashFn false J fsb).2
            = fsb.insert (_jid_dir cachedir hashFn J ++ ["jid"]) (.file J) := rfl
        rw [hred]
        refine ⟨?_, ⟨fun hc => absurd hc (by decide), fun _ => ?_⟩⟩
        · rw [FS.lookup_insert]
        · rw [FS.lookup_insert_ne _ _ _ _ hne]
          exact hpre
    cases hp : passed_jid with
    | some j =>
      cases hmk : FS.makedirsSpec (_jid_dir cachedir hashFn j) fs with
      | ok fs1 =>
        have hstep : prep_jid cachedir hashFn FS.makedirsSpec nocache (some j) gens
            fs k (n + 1) = some (prep_jid_write cachedir hashFn nocache j fs1) := by
          simp [prep_jid, hmk]
        subst hp
        rw [hstep] at h
        have hJ : j = J := by
          have := congrArg (fun o => o.map Prod.fst) h
          simpa [prep_jid_write] using this
        subst hJ
        have hfs : (prep_jid_write cachedir hashFn nocache j fs1).2 = fs' := by
          have := congrArg (fun o => o.map Prod.snd) h
          simpa using this
        rw [← hfs]
        apply hmarks
        rw [FS.makedirsSpec_ok _ _ _ hmk]
        apply FS.lookup_insert_ne
        apply path_ne_of_length_ne
        simp [_jid_dir, _job_dir]
      | error e =>
        have hstep : prep_jid cachedir hashFn FS.makedirsSpec nocache (some j) gens
            fs k (n + 1) = some (prep_jid_write cachedir hashFn nocache j fs) := by
          simp [prep_jid, hmk]
        subst hp
        rw [hstep] at h
        have hJ : j = J := by
          have := congrArg (fun o => o.map Prod.fst) h
          simpa [prep_jid_write] using this
        subst hJ
        have hfs : (prep_jid_write cachedir hashFn nocache j fs).2 = fs' := by
          have := congrArg (fun o => o.map Prod.snd) h
          simpa using this
        rw [← hfs]
        exact hmarks fs rfl
    | none =>
      cases hmk : FS.makedirsSpec (_jid_dir cachedir hashFn (gens k)) fs with
      | ok fs1 =>
        have hstep : prep_jid cachedir hashFn FS.makedirsSpec nocache none gens
            fs k (n + 1)
            = some (prep_jid_write cachedir hashFn nocache (gens k) fs1) := by
          simp [prep_jid, hmk]
        subst hp
        rw [hstep] at h
        have hJ : gens k = J := by
          have := congrArg (fun o => o.map Prod.fst) h
          simpa [prep_jid_write] using this
        have hfs : (prep_jid_write cachedir hashFn nocache (gens k) fs1).2 = fs' := by
          have := congrArg (fun o => o.map Prod.snd) h
          simpa using this
        rw [← hfs, hJ]
        apply hmarks
        rw [FS.makedirsSpec_ok _ _ _ hmk]
        apply FS.lookup_insert_ne
        apply path_ne_of_length_ne
        simp [_jid_dir, _job_dir]
      | error e =>
        have hstep : prep_jid cachedir hashFn FS.makedirsSpec nocache none gens
            fs k (n + 1)
            = prep_jid cachedir hashFn FS.makedirsSpec nocache none gens
                fs (k + 1) n := by
          simp [prep_jid, hmk]
        subst hp
        rw [hstep] at h
        exact ih (k + 1) h

def prepResT : Option (String × FS) :=
  prep_jid ["var"] (fun _ => "abcd") FS.makedirsSpec true (some "20") (fun _ => "g")
    (FS.empty.insert ["var", "jobs", "ab"] .dir) 0 1

theorem prep_jid_success_markers_witness :
    (prepResT.getD ("", FS.empty)).2.lookup
        (_jid_dir ["var"] (fun _ => "abcd") "20" ++ ["jid"])
      = some (.file "20")
    ∧ (prepResT.getD ("", FS.empty)).2.lookup
        (_jid_dir ["var"] (fun _ => "abcd") "20" ++ ["nocache"])
      = some (.file "") := by
  have h : prep_jid ["var"] (fun _ => "abcd") FS.makedirsSpec true (some "20")
      (fun _ => "g") (FS.empty.insert ["var", "jobs", "ab"] .dir) 0 1
      = some ("20", (prepResT.getD ("", FS.empty)).2) := rfl
  have hh := prep_jid_success_markers ["var"] (fun _ => "abcd") true (some "20")
    (fun _ => "g") (FS.empty.insert ["var", "jobs", "ab"] .dir) 0 1 "20"
    (prepResT.getD ("", FS.empty)).2 h
  exact ⟨hh.1, hh.2.1 rfl⟩

/-- C5 counterexample: an I/O error other than "already exists" during the
exclusive creation is NOT fatal and does not propagate.  With an explicit id,
a creation attempt failing with `EACCES` is swallowed and the call returns
normally, writing the marker; with no explicit id, the same error is converted
into retries with fresh candidate ids (the call keeps retrying and never
raises). -/
theorem prep_jid_error_propagation_cex :
    prep_jid ["var"] (fun _ => "abcd") (fun _ _ => .error .EACCES) false
        (some "20") (fun _ => "g") FS.empty 0 1
      = some ("20",
          FS.empty.insert (_jid_dir ["var"] (fun _ => "abcd") "20" ++ ["jid"])
            (.file "20"))
    ∧ prep_jid ["var"] (fun _ => "abcd") (fun _ _ => .error .EACCES) false none
        (fun k => toString k) FS.empty 0 5 = none := by
  exact ⟨rfl, rfl⟩

/-- C5 (amended): `prep_jid` catches every OSError raised by the directory
creation, so no creation error propagates to the caller.  When no explicit id
was supplied, any creation error — regardless of its errno — leads to a
retransmission with a fresh candidate id; when an explicit id was supplied,
the error is swallowed and the call proceeds to write the marker files and
return the id. -/
theorem prep_jid_oserror_handling (cachedir : List String)
    (hashFn : String → String) (mk : List String → FS → Except Errno FS)
    (nocache : Bool) (gens : Nat → String) (fs : FS) (k fuel : Nat)
    (e e2 : Errno) (j : String) :
    (mk (_jid_dir cachedir hashFn (gens k)) fs = .error e →
      prep_jid cachedir hashFn mk nocache none gens fs k (fuel + 1)
        = prep_jid cachedir hashFn mk nocache none gens fs (k + 1) fuel)
    ∧ (mk (_jid_dir cachedir hashFn j) fs = .error e2 →
      prep_jid cachedir hashFn mk nocache (some j) gens fs k (fuel + 1)
        = some (prep_jid_write cachedir hashFn nocache j fs)) := by
  constructor
  · intro h
    simp [prep_jid, h]
  · intro h
    simp [prep_jid, h]

theorem prep_jid_oserror_handling_witness :
    prep_jid ["var"] (fun _ => "abcd") (fun _ _ => .error .other) true none
        (fun _ => "g") FS.empty 3 8
      = prep_jid ["var"] (fun _ => "abcd") (fun _ _ => .error .other) true none
        (fun _ => "g") FS.empty 4 7
    ∧ prep_jid ["var"] (fun _ => "abcd") (fun _ _ => .error .other) true
        (some "77") (fun _ => "g") FS.empty 0 1
      = some (prep_jid_write ["var"] (fun _ => "abcd") true "77" FS.empty) :=
  ⟨(prep_jid_oserror_handling ["var"] (fun _ => "abcd") (fun _ _ => .error .other)
      true (fun _ => "g") FS.empty 3 7 .other .other "77").1 rfl,
   (prep_jid_oserror_handling ["var"] (fun _ => "abcd") (fun _ _ => .error .other)
      true (fun _ => "g") FS.empty 0 0 .other .other "77").2 rfl⟩

theorem dropLast_append_singleton (l : List String) (a : String) :
    (l ++ [a]).dropLast = l := by
  simp

theorem FS.makedirsSpec_ok_of (p : List String) (fs : FS)
    (h1 : fs.exists_ p = false) (h2 : fs.exists_ p.dropLast = true) :
    FS.makedirsSpec p fs = .ok (fs.insert p .dir) := by
  unfold FS.makedirsSpec
  rw [if_neg (by simp [h1]), if_neg (by simp [h2])]

theorem FS.makedirsSpec_eexist (p : List String) (fs : FS)
    (h : fs.exists_ p = true) : FS.makedirsSpec p fs = .error .EEXIST := by
  unfold FS.makedirsSpec
  rw [if_pos (by simp [h])]

theorem FS.makedirsSpec_enoent (p : List String) (fs : FS)
    (h1 : fs.exists_ p = false) (h2 : fs.exists_ p.dropLast = false) :
    FS.makedirsSpec p fs = .error .ENOENT := by
  unfold FS.makedirsSpec
  rw [if_neg (by simp [h1]), if_pos (by simp [h2])]

/-- `returner` on a load whose jid is not the standalone sentinel `"req"`:
the no-cache check, the exclusive creation of the worker directory, and the
payload writes. -/
theorem returner_not_req (cachedir : List String) (hashFn : String → String)
    (mk : List String → FS → Except Errno FS) (gens : Nat → String) (fuel : Nat)
    (load : Load) (fs : FS) (hreq : load.jid ≠ "req") :
    returner cachedir hashFn mk gens fuel load fs
    = some (
        if fs.exists_ (_jid_dir cachedir hashFn load.jid ++ ["nocache"])
        then .ok (fs, .noneVal)
        else
          match mk (_jid_dir cachedir hashFn load.jid ++ [load.id]) fs with
          | .error .EEXIST => .ok (fs, .falseVal)
          | .error .ENOENT => .ok (fs, .falseVal)
          | .error e => .error e
          | .ok fs1 =>
            .ok (match load.out with
              | some o => (fs1.insert ((_jid_dir cachedir hashFn load.jid
                  ++ [load.id]) ++ ["return.p"]) (.file load.ret)).insert
                    ((_jid_dir cachedir hashFn load.jid ++ [load.id])
                      ++ ["out.p"]) (.file o)
              | none => fs1.insert ((_jid_dir cachedir hashFn load.jid
                  ++ [load.id]) ++ ["return.p"]) (.file load.ret),
              .noneVal)) := by
  unfold returner
  rw [if_neg hreq]

/-- C1 (amended): for every job id `J` other than the request sentinel
`"req"` and every worker id `W` other than the literal marker name
`"nocache"`, a second `returner` call for the same `(J, W)` after a first
successful call returns the rejection value `False`, leaves the stored
payload at `return.p` equal to the first call payload (never the second),
and writes no files (the filesystem is returned unchanged).  The exclusion
of `W = "nocache"` is forced: for a worker literally named `nocache`, the
first call creates the directory that the no-cache check tests, so the replay
is skipped with `None` instead of rejected with `False` (the payload is still
preserved and no files are written). -/
theorem returner_replay_spec (cachedir : List String) (hashFn : String → String)
    (gens : Nat → String) (fuel : Nat) (J W p1 p2 : String)
    (o1 o2 : Option String) (nc1 nc2 : Bool) (fs0 : FS)
    (hreq : J ≠ "req") (hW : W ≠ "nocache")
    (hnc : fs0.exists_ (_jid_dir cachedir hashFn J ++ ["nocache"]) = false)
    (hjd : fs0.exists_ (_jid_dir cachedir hashFn J) = true)
    (hhn : fs0.exists_ (_jid_dir cachedir hashFn J ++ [W]) = false) :
    ∃ fs1 : FS,
      returner cachedir hashFn FS.makedirsSpec gens fuel ⟨J, W, p1, o1, nc1⟩ fs0
        = some (.ok (fs1, .noneVal))
      ∧ fs1.lookup ((_jid_dir cachedir hashFn J ++ [W]) ++ ["return.p"])
          = some (.file p1)
      ∧ returner cachedir hashFn FS.makedirsSpec gens fuel ⟨J, W, p2, o2, nc2⟩ fs1
        = some (.ok (fs1, .falseVal)) := by
  have hmk1 : FS.makedirsSpec (_jid_dir cachedir hashFn J ++ [W]) fs0
      = Except.ok (fs0.insert (_jid_dir cachedir hashFn J ++ [W]) Entry.dir) := by
    apply FS.makedirsSpec_ok_of _ fs0 hhn
    rw [dropLast_append_singleton]
    exact hjd
  have hne_nc_hn : _jid_dir cachedir hashFn J ++ ["nocache"]
      ≠ _jid_dir cachedir hashFn J ++ [W] := path_ne_append_ne (Ne.symm hW)
  have hne_nc_ret : _jid_dir cachedir hashFn J ++ ["nocache"]
      ≠ (_jid_dir cachedir hashFn J ++ [W]) ++ ["return.p"] := by
    apply path_ne_of_length_ne
    simp
  have hne_nc_out : _jid_dir cachedir hashFn J ++ ["nocache"]
      ≠ (_jid_dir cachedir hashFn J ++ [W]) ++ ["out.p"] := by
    apply path_ne_of_length_ne
    simp
  have hne_hn_ret : _jid_dir cachedir hashFn J ++ [W]
      ≠ (_jid_dir cachedir hashFn J ++ [W]) ++ ["return.p"] := by
    apply path_ne_of_length_ne
    simp
  have hne_hn_out : _jid_dir cachedir hashFn J ++ [W]
      ≠ (_jid_dir cachedir hashFn J ++ [W]) ++ ["out.p"] := by
    apply path_ne_of_length_ne
    simp
  have hne_ret_out : (_jid_dir cachedir hashFn J ++ [W]) ++ ["return.p"]
      ≠ (_jid_dir cachedir hashFn J ++ [W]) ++ ["out.p"] :=
    path_ne_append_ne (by decide)
  have hsecond : ∀ fs1 : FS,
      fs1.exists_ (_jid_dir cachedir hashFn J ++ ["nocache"]) = false →
      fs1.exists_ (_jid_dir cachedir hashFn J ++ [W]) = true →
      returner cachedir hashFn FS.makedirsSpec gens fuel ⟨J, W, p2, o2, nc2⟩ fs1
        = some (.ok (fs1, .falseVal)) := by
    intro fs1 h1 h2
    rw [returner_not_req cachedir hashFn FS.makedirsSpec gens fuel
      ⟨J, W, p2, o2, nc2⟩ fs1 hreq]
    dsimp only
    rw [FS.makedirsSpec_eexist _ fs1 h2]
    rw [if_neg (by simp [h1])]
  cases o1 with
  | none =>
    refine ⟨(fs0.insert (_jid_dir cachedir hashFn J ++ [W]) .dir).insert
      ((_jid_dir cachedir hashFn J ++ [W]) ++ ["return.p"]) (.file p1),
      ?_, ?_, ?_⟩
    · rw [returner_not_req cachedir hashFn FS.makedirsSpec gens fuel
        ⟨J, W, p1, none, nc1⟩ fs0 hreq]
      dsimp only
      rw [hmk1]
      rw [if_neg (by simp [hnc])]
    · rw [FS.lookup_insert]
    · apply hsecond
      · rw [FS.exists_insert_ne _ _ _ _ hne_nc_ret,
          FS.exists_insert_ne _ _ _ _ hne_nc_hn]
        exact hnc
      · rw [FS.exists_insert_ne _ _ _ _ hne_hn_ret]
        exact FS.exists_insert_self _ _ _
  | some o =>
    refine ⟨((fs0.insert (_jid_dir cachedir hashFn J ++ [W]) .dir).insert
      ((_jid_dir cachedir hashFn J ++ [W]) ++ ["return.p"]) (.file p1)).insert
      ((_jid_dir cachedir hashFn J ++ [W]) ++ ["out.p"]) (.file o),
      ?_, ?_, ?_⟩
    · rw [returner_not_req cachedir hashFn FS.makedirsSpec gens fuel
        ⟨J, W, p1, some o, nc1⟩ fs0 hreq]
      dsimp only
      rw [hmk1]
      rw [if_neg (by simp [hnc])]
    · rw [FS.lookup_insert_ne _ _ _ _ hne_ret_out, FS.lookup_insert]
    · apply hsecond
      · rw [FS.exists_insert_ne _ _ _ _ hne_nc_out,
          FS.exists_insert_ne _ _ _ _ hne_nc_ret,
          FS.exists_insert_ne _ _ _ _ hne_nc_hn]
        exact hnc
      · rw [FS.exists_insert_ne _ _ _ _ hne_hn_out,
          FS.exists_insert_ne _ _ _ _ hne_hn_ret]
        exact FS.exists_insert_self _ _ _

theorem returner_replay_spec_witness :
    ∃ fs1 : FS,
      returner ["var"] (fun _ => "abcd") FS.makedirsSpec (fun _ => "g") 0
          ⟨"25", "w1", "p1", none, false⟩
          (FS.empty.insert (_jid_dir ["var"] (fun _ => "abcd") "25") .dir)
        = some (.ok (fs1, .noneVal))
      ∧ fs1.lookup ((_jid_dir ["var"] (fun _ => "abcd") "25" ++ ["w1"])
          ++ ["return.p"]) = some (.file "p1")
      ∧ returner ["var"] (fun _ => "abcd") FS.makedirsSpec (fun _ => "g") 0
          ⟨"25", "w1", "p2", none, false⟩ fs1
        = some (.ok (fs1, .falseVal)) :=
  returner_replay_spec ["var"] (fun _ => "abcd") (fun _ => "g") 0 "25" "w1"
    "p1" "p2" none none false false
    (FS.empty.insert (_jid_dir ["var"] (fun _ => "abcd") "25") .dir)
    (by decide) (by decide) (by decide) (by decide) (by decide)

/-- C1 counterexample: for the worker id literally named `nocache` the claim
fails.  The first call succeeds (creating the directory `jid_dir/nocache` and
writing the payload), but the second call returns `None` — the success/no-op
value, not the rejection value `False` — because the no-cache check
`os.path.exists(jid_dir/nocache)` now sees the worker directory.  (The
payload is still untouched.) -/
theorem returner_replay_cex :
    returner ["var"] (fun _ => "abcd") FS.makedirsSpec (fun _ => "g") 0
        ⟨"21", "nocache", "p1", none, false⟩
        (FS.empty.insert ["var", "jobs", "ab", "cd"] .dir)
      = some (.ok (⟨[(["var", "jobs", "ab", "cd", "nocache", "return.p"],
            .file "p1"),
          (["var", "jobs", "ab", "cd", "nocache"], .dir),
          (["var", "jobs", "ab", "cd"], .dir)]⟩, .noneVal))
    ∧ returner ["var"] (fun _ => "abcd") FS.makedirsSpec (fun _ => "g") 0
        ⟨"21", "nocache", "p2", none, false⟩
        ⟨[(["var", "jobs", "ab", "cd", "nocache", "return.p"], .file "p1"),
          (["var", "jobs", "ab", "cd", "nocache"], .dir),
          (["var", "jobs", "ab", "cd"], .dir)]⟩
      = some (.ok (⟨[(["var", "jobs", "ab", "cd", "nocache", "return.p"],
            .file "p1"),
          (["var", "jobs", "ab", "cd", "nocache"], .dir),
          (["var", "jobs", "ab", "cd"], .dir)]⟩, .noneVal))
    ∧ PyRet.noneVal ≠ PyRet.falseVal := by
  exact ⟨rfl, rfl, by decide⟩

/-- C2 counterexample: the two failure conditions are NOT distinguishable
from the returned value.  A replay (worker directory already exists) and an
inconsistency (job directory never reserved) both return the same value
`False`. -/
theorem returner_distinct_cex :
    returner ["var"] (fun _ => "abcd") FS.makedirsSpec (fun _ => "g") 0
        ⟨"22", "w1", "p", none, false⟩
        ((FS.empty.insert ["var", "jobs", "ab", "cd"] .dir).insert
          ["var", "jobs", "ab", "cd", "w1"] .dir)
      = some (.ok (((FS.empty.insert ["var", "jobs", "ab", "cd"] .dir).insert
          ["var", "jobs", "ab", "cd", "w1"] .dir), .falseVal))
    ∧ returner ["var"] (fun _ => "abcd") FS.makedirsSpec (fun _ => "g") 0
        ⟨"22", "w1", "p", none, false⟩ FS.empty
      = some (.ok (FS.empty, .falseVal))
    ∧ ((FS.empty.insert ["var", "jobs", "ab", "cd"] .dir).insert
        ["var", "jobs", "ab", "cd", "w1"] .dir).exists_
        ["var", "jobs", "ab", "cd", "w1"] = true
    ∧ FS.empty.exists_ ["var", "jobs", "ab", "cd"] = false := by
  exact ⟨rfl, rfl, rfl, rfl⟩

/-- C2 (amended): both failure outcomes of `returner` — the replay (worker
directory already exists) and the inconsistency (result for a job id with no
reserved directory) — are reported to the caller with the same return value
`False`; they are distinguished only in the log message, not from the
returned value. -/
theorem returner_failure_values (cachedir : List String)
    (hashFn : String → String) (gens : Nat → String) (fuel : Nat) (load : Load)
    (fs : FS) (hreq : load.jid ≠ "req")
    (hnc : fs.exists_ (_jid_dir cachedir hashFn load.jid ++ ["nocache"])
      = false) :
    (fs.exists_ (_jid_dir cachedir hashFn load.jid ++ [load.id]) = true →
      returner cachedir hashFn FS.makedirsSpec gens fuel load fs
        = some (.ok (fs, .falseVal)))
    ∧ (fs.exists_ (_jid_dir cachedir hashFn load.jid ++ [load.id]) = false →
       fs.exists_ (_jid_dir cachedir hashFn load.jid) = false →
      returner cachedir hashFn FS.makedirsSpec gens fuel load fs
        = some (.ok (fs, .falseVal))) := by
  constructor
  · intro hex
    rw [returner_not_req cachedir hashFn FS.makedirsSpec gens fuel load fs hreq]
    rw [FS.makedirsSpec_eexist _ fs hex]
    rw [if_neg (by simp [hnc])]
  · intro hex hjd
    rw [returner_not_req cachedir hashFn FS.makedirsSpec gens fuel load fs hreq]
    rw [FS.makedirsSpec_enoent _ fs hex
      (by rw [dropLast_append_singleton]; exact hjd)]
    rw [if_neg (by simp [hnc])]

theorem returner_failure_values_witness :
    returner ["var"] (fun _ => "abcd") FS.makedirsSpec (fun _ => "g") 1
        ⟨"23", "w2", "p", none, false⟩
        ((FS.empty.insert ["var", "jobs", "ab", "cd"] .dir).insert
          ["var", "jobs", "ab", "cd", "w2"] .dir)
      = some (.ok (((FS.empty.insert ["var", "jobs", "ab", "cd"] .dir).insert
          ["var", "jobs", "ab", "cd", "w2"] .dir), .falseVal))
    ∧ returner ["var"] (fun _ => "abcd") FS.makedirsSpec (fun _ => "g") 1
        ⟨"23", "w2", "p", none, false⟩ FS.empty
      = some (.ok (FS.empty, .falseVal)) :=
  ⟨(returner_failure_values ["var"] (fun _ => "abcd") (fun _ => "g") 1
      ⟨"23", "w2", "p", none, false⟩
      ((FS.empty.insert ["var", "jobs", "ab", "cd"] .dir).insert
        ["var", "jobs", "ab", "cd", "w2"] .dir)
      (by decide) (by decide)).1 (by decide),
   (returner_failure_values ["var"] (fun _ => "abcd") (fun _ => "g") 1
      ⟨"23", "w2", "p", none, false⟩ FS.empty
      (by decide) (by decide)).2 (by decide) (by decide)⟩

theorem get_jid_go_no_dot (jid_dir : List String) (fs : FS)
    (retReads outReads : String → Nat → ReadOutcome) (fuel : Nat) :
    ∀ (names : List String) (acc res : List (String × JidEntry)),
      (∀ pr ∈ acc, pr.1.data.head? ≠ some '.') →
      get_jid_go jid_dir fs retReads outReads fuel names acc = some (.ok res) →
      ∀ pr ∈ res, pr.1.data.head? ≠ some '.'
  | [], acc, res, hacc, h => by
    have hres : acc = res := by
      have h2 := Option.some.inj h
      exact Except.ok.inj h2
    exact hres ▸ hacc
  | fn :: rest, acc, res, hacc, h => by
    unfold get_jid_go at h
    by_cases hdot : fn.data.head? = some '.'
    · rw [if_pos hdot] at h
      exact get_jid_go_no_dot jid_dir fs retReads outReads fuel rest acc res hacc h
    · rw [if_neg hdot] at h
      by_cases hfound : (acc.find? (fun e => decide (e.1 = fn))).isSome = true
      · rw [if_pos hfound] at h
        exact get_jid_go_no_dot jid_dir fs retReads outReads fuel rest acc res hacc h
      · rw [if_neg hfound] at h
        by_cases hret : ¬ fs.isFile (jid_dir ++ [fn, "return.p"]) = true
        · rw [if_pos hret] at h
          exact get_jid_go_no_dot jid_dir fs retReads outReads fuel rest acc res hacc h
        · rw [if_neg hret] at h
          cases hloop : get_jid_entry_loop (retReads fn) (outReads fn)
              (fs.isFile (jid_dir ++ [fn, "out.p"])) 0 fuel with
          | none =>
            rw [hloop] at h
            exact absurd h (by simp)
          | some el =>
            rw [hloop] at h
            cases el with
            | raised => exact absurd h (by simp)
            | got e =>
              apply get_jid_go_no_dot jid_dir fs retReads outReads fuel rest
                (acc ++ [(fn, e)]) res _ h
              intro pr hpr
              rcases List.mem_append.mp hpr with hin | hin
              · exact hacc pr hin
              · have : pr = (fn, e) := by simpa using hin
                rw [this]
                exact hdot

/-- C9: for every job id, the mapping returned by `get_jid` never contains an
entry for a worker whose id begins with the character `.`, even when that
worker directory exists and holds a `return.p` payload: dot-prefixed entries
of the job directory are unconditionally skipped. -/
theorem get_jid_no_dot_entries (cachedir : List String)
    (hashFn : String → String) (jid : String) (fs : FS)
    (retReads outReads : String → Nat → ReadOutcome) (fuel : Nat)
    (res : List (String × JidEntry))
    (h : get_jid cachedir hashFn jid fs retReads outReads fuel = some (.ok res)) :
    ∀ pr ∈ res, pr.1.data.head? ≠ some '.' := by
  unfold get_jid at h
  by_cases hdir : ¬ fs.isDir (_jid_dir cachedir hashFn jid) = true
  · rw [if_pos hdir] at h
    have hres : ([] : List (String × JidEntry)) = res :=
      Except.ok.inj (Option.some.inj h)
    intro pr hpr
    rw [← hres] at hpr
    exact absurd hpr (List.not_mem_nil pr)
  · rw [if_neg hdir] at h
    exact get_jid_go_no_dot (_jid_dir cachedir hashFn jid) fs retReads outReads
      fuel (fs.listdir (_jid_dir cachedir hashFn jid)) [] res
      (fun pr hpr => absurd hpr (List.not_mem_nil pr)) h

def fsWT : FS :=
  ⟨[(["var", "jobs", "ab", "cd"], .dir),
    (["var", "jobs", "ab", "cd", ".hid"], .dir),
    (["var", "jobs", "ab", "cd", ".hid", "return.p"], .file "s"),
    (["var", "jobs", "ab", "cd", "w"], .dir),
    (["var", "jobs", "ab", "cd", "w", "return.p"], .file "v")]⟩

theorem get_jid_no_dot_entries_witness :
    get_jid ["var"] (fun _ => "abcd") "26" fsWT
        (fun _ _ => .ok "v") (fun _ _ => .ok "o") 1
      = some (.ok [("w", ⟨"v", none⟩)])
    ∧ ("w", (⟨"v", none⟩ : JidEntry)).1.data.head? ≠ some '.' := by
  constructor
  · rfl
  · exact get_jid_no_dot_entries ["var"] (fun _ => "abcd") "26" fsWT
      (fun _ _ => .ok "v") (fun _ _ => .ok "o") 1 [("w", ⟨"v", none⟩)] rfl
      ("w", ⟨"v", none⟩) (by simp)

def fsHang : FS :=
  ⟨[(["var", "jobs", "ab", "cd"], .dir),
    (["var", "jobs", "ab", "cd", "w"], .dir),
    (["var", "jobs", "ab", "cd", "w", "return.p"], .file "p")]⟩

/-- C6 counterexample: the per-worker retry loop is NOT bounded.  On a job
directory with one worker entry whose `return.p` reads keep failing with a
non-permission error, `get_jid` never terminates: for no amount of fuel does
the call produce a result (the `while fn_ not in ret` loop spins forever
instead of omitting the entry). -/
theorem get_jid_nonterminating_cex :
    ¬ get_jid_terminates ["var"] (fun _ => "abcd") "27" fsHang
      (fun _ _ => .err "unpack failed") (fun _ _ => .ok "") := by
  intro hterm
  obtain ⟨fuel, r, h⟩ := hterm
  have hloop : ∀ n k,
      get_jid_entry_loop (fun _ => ReadOutcome.err "unpack failed")
        (fun _ => ReadOutcome.ok "") false k n = none := by
    intro n
    induction n with
    | zero => intro k; rfl
    | succ m ih =>
      intro k
      show (if permDenied "unpack failed" = true then some EntryLoopResult.raised
        else get_jid_entry_loop (fun _ => ReadOutcome.err "unpack failed")
          (fun _ => ReadOutcome.ok "") false (k + 1) m) = none
      rw [if_neg (by decide)]
      exact ih (k + 1)
  have hstep : get_jid ["var"] (fun _ => "abcd") "27" fsHang
      (fun _ _ => .err "unpack failed") (fun _ _ => .ok "") fuel
      = match get_jid_entry_loop (fun _ => ReadOutcome.err "unpack failed")
          (fun _ => ReadOutcome.ok "") false 0 fuel with
        | none => none
        | some .raised => some (.error ())
        | some (.got e) => get_jid_go ["var", "jobs", "ab", "cd"] fsHang
            (fun _ _ => .err "unpack failed") (fun _ _ => .ok "") fuel []
            [("w", e)] := rfl
  rw [hstep, hloop fuel 0] at h
  exact Option.noConfusion h

/-- C6 (amended): in the per-worker retry loop of `get_jid`, a
permission-denied error propagates immediately without a retry, and a read
that succeeds yields the worker entry; but the loop is unbounded: when every
read fails with a non-permission error the loop never terminates — the
worker entry is not omitted and `get_jid` hangs instead of returning. -/
theorem get_jid_retry_loop_spec (retReads outReads : Nat → ReadOutcome)
    (m v : String) :
    (retReads 0 = .err m → permDenied m = true →
      ∀ fuel, get_jid_entry_loop retReads outReads false 0 (fuel + 1)
        = some .raised)
    ∧ ((∀ k, ∃ msg, retReads k = .err msg ∧ permDenied msg = false) →
      ∀ fuel k, get_jid_entry_loop retReads outReads false k fuel = none)
    ∧ (retReads 0 = .ok v →
      ∀ fuel, get_jid_entry_loop retReads outReads false 0 (fuel + 1)
        = some (.got ⟨v, none⟩)) := by
  refine ⟨?_, ?_, ?_⟩
  · intro herr hperm fuel
    simp [get_jid_entry_loop, herr, hperm]
  · intro hall fuel
    induction fuel with
    | zero => intro k; rfl
    | succ n ih =>
      intro k
      obtain ⟨msg, hmsg, hpd⟩ := hall k
      simp only [get_jid_entry_loop, hmsg, hpd]
      simp only [Bool.false_eq_true, if_false]
      exact ih (k + 1)
  · intro hok fuel
    simp [get_jid_entry_loop, hok]

theorem get_jid_retry_loop_spec_witness :
    get_jid_entry_loop (fun _ => .err "open: Permission denied: x")
        (fun _ => .ok "") false 0 1 = some .raised
    ∧ get_jid_entry_loop (fun _ => .err "disk error") (fun _ => .ok "")
        false 0 7 = none
    ∧ get_jid_entry_loop (fun _ => .ok "val") (fun _ => .ok "") false 0 3
        = some (.got ⟨"val", none⟩) :=
  ⟨(get_jid_retry_loop_spec (fun _ => .err "open: Permission denied: x")
      (fun _ => .ok "") "open: Permission denied: x" "val").1 rfl (by decide) 0,
   (get_jid_retry_loop_spec (fun _ => .err "disk error") (fun _ => .ok "")
      "disk error" "val").2.1 (fun _ => ⟨"disk error", rfl, by decide⟩) 7 0,
   (get_jid_retry_loop_spec (fun _ => .ok "val") (fun _ => .ok "") "m" "val").2.2
     rfl 2⟩
